import Mathlib

/-!
Verification of the python-mcts repository: a shallow embedding of the
MCTS engine (`mcts.py`) and the TicTacToe game adapter (`tictactoe.py`),
with theorems settling the frozen specification claims.

Modelling conventions:
* A board cell holds `none` (empty) or `some token` (a player string);
  the board is a row-major list of rows, mirroring the numpy 2-D array.
* Numpy integer indexing accepts indices in the interval from `-size`
  to `size - 1`, a negative index aliasing to `index + size`; indices
  outside that interval raise IndexError.  `npIndex` resolves an index
  to `none` exactly when numpy would raise.
* Python exceptions are modelled with `Except` / `Option` results; code
  that mutates `self` is written in explicit state-passing style so that
  the state at the moment an exception is raised is observable.
* Floating point scores are modelled over `ℚ`; the external `np.sqrt`
  and `np.log` routines are abstracted as function parameters, since the
  engine only feeds scores into comparisons.
* Randomness (`random.choice`) is injected: a call receives a natural
  number and picks the element at that index modulo the length, with
  `none` modelling the IndexError raised on an empty sequence.
-/

namespace PyMCTS

/-- A board cell of `tictactoe.py`: `None` or a player token string. -/
abbrev Cell := Option String

/-- The fixed player list `self.players = ["X", "O"]`. -/
def players : List String := ["X", "O"]

/-- From `TicTacToe._switch_player`: the first element of `self.players`
different from `player`. -/
def switch_player (player : String) : String :=
  (players.filter (fun p => p ≠ player)).headD "X"

/-- Resolution of one numpy index against an axis of length `n`:
`some` of the effective non-negative index, `none` for IndexError. -/
def npIndex (n : ℕ) (i : ℤ) : Option ℕ :=
  if 0 ≤ i ∧ i < (n : ℤ) then some i.toNat
  else if -(n : ℤ) ≤ i ∧ i < 0 then some (i + (n : ℤ)).toNat
  else none

/-- Read the board cell at resolved indices `(i, j)`. -/
def getCell (board : List (List Cell)) (i j : ℕ) : Cell :=
  (board.getD i []).getD j none

/-- Write the board cell at resolved indices `(i, j)`. -/
def setCell (board : List (List Cell)) (i j : ℕ) (v : Cell) : List (List Cell) :=
  board.set i ((board.getD i []).set j v)

/-- Python truthiness of a cell value: `None` and the empty string are
falsy, any other string is truthy. -/
def truthy (c : Cell) : Bool :=
  match c with
  | none => false
  | some s => s ≠ ""

/-- From `TicTacToe.is_winner.check`:
`np.count_nonzero(array == token) == self.size`. -/
def check (size : ℕ) (cells : List Cell) (token : String) : Bool :=
  cells.countP (fun c => c = some token) = size

/-- Row `i` of the board, `self.observation_space[i, :]`. -/
def row (board : List (List Cell)) (i : ℕ) : List Cell :=
  board.getD i []

/-- Column `j` of the board, `self.observation_space[:, j]`. -/
def col (board : List (List Cell)) (j : ℕ) : List Cell :=
  board.map (fun r => r.getD j none)

/-- The main diagonal, `self.observation_space.diagonal()`. -/
def diag (board : List (List Cell)) : List Cell :=
  board.enum.map (fun p => p.2.getD p.1 none)

/-- The anti-diagonal, `self.observation_space[:, ::-1].diagonal()`:
element `i` is the original cell `(i, size - 1 - i)`. -/
def antidiag (size : ℕ) (board : List (List Cell)) : List Cell :=
  board.enum.map (fun p => p.2.getD (size - 1 - p.1) none)

/-- From `TicTacToe.is_winner`: some row, column or diagonal is filled
with `token`.  The source checks row `i` and column `i` inside one loop
with early returns, which is the same boolean. -/
def is_winner (size : ℕ) (board : List (List Cell)) (token : String) : Bool :=
  ((List.range size).any (fun i => check size (row board i) token)) ||
  ((List.range size).any (fun i => check size (col board i) token)) ||
  check size (diag board) token ||
  check size (antidiag size board) token

/-- From `TicTacToe.is_finished`: `None not in self.observation_space`. -/
def is_finished (board : List (List Cell)) : Bool :=
  board.all (fun r => r.all (fun c => c ≠ none))

/-- From `TicTacToe.actions`: the row-major list of coordinates of the
empty cells, `[(i, j) for i, j in zip(*np.where(observation == None))]`. -/
def actions (obs : List (List Cell)) : List (ℕ × ℕ) :=
  (obs.enum.map (fun p =>
    p.2.enum.filterMap (fun q =>
      if q.2 = none then some (p.1, q.1) else none))).flatten

/-- The `GameError` raise sites of `TicTacToe.step`, one constructor per
message. -/
inductive GameError where
  | invalidPlayer
  | notTurn
  | invalidPlay
  | alreadyMade
  | invalidMovement
deriving DecidableEq

/-- The mutable fields of the `TicTacToe` object that `step` touches. -/
structure TicTacToe where
  size : ℕ
  observation_space : List (List Cell)
  current_player : Option String
deriving DecidableEq

/-- From `TicTacToe.step`, in state-passing style: the first component
is the returned tuple `(observation, reward, done, info)` or the raised
`GameError`; the second component is the game object after the call, so
that mutation (or its absence) on each exception path is observable.
The dead final match arm stands for the impossible case of a length-two
list that is not a two-element list. -/
def step (g : TicTacToe) (player : String) (move : Option (List ℤ)) :
    Except GameError (List (List Cell) × ℤ × Bool × Option String) × TicTacToe :=
  if player ∉ players then (.error .invalidPlayer, g)
  else if g.current_player ≠ none ∧ g.current_player ≠ some player then
    (.error .notTurn, g)
  else
    match move with
    | none => (.error .invalidPlay, g)
    | some m =>
      if m.length ≠ 2 then (.error .invalidPlay, g)
      else
        match npIndex g.size (m.getD 0 0), npIndex g.size (m.getD 1 0) with
        | some i, some j =>
          if truthy (getCell g.observation_space i j) then (.error .alreadyMade, g)
          else
            let board1 := setCell g.observation_space i j (some player)
            if is_winner g.size board1 player then
              (.ok (board1, 1, true, some player), ⟨g.size, board1, some player⟩)
            else if is_finished board1 then
              (.ok (board1, 0, true, none), ⟨g.size, board1, none⟩)
            else
              (.ok (board1, 0, false, some (switch_player player)),
               ⟨g.size, board1, some (switch_player player)⟩)
        | _, _ => (.error .invalidMovement, g)

/-- Whether an `Except` result is a raised error. -/
def errored {ε α : Type} (e : Except ε α) : Bool :=
  match e with
  | .error _ => true
  | .ok _ => false

/-- The claim's malformed-move condition: `move is None or len(move) != 2`. -/
def moveMalformed : Option (List ℤ) → Bool
  | none => true
  | some m => m.length ≠ 2

/-- The amended out-of-range condition: a coordinate outside the range
numpy indexing accepts, so outside the interval from `-size` to
`size - 1` (negative indices down to `-size` alias into the board and
are accepted). -/
def moveOutOfRange (size : ℕ) (m : List ℤ) : Bool :=
  (npIndex size (m.getD 0 0)).isNone || (npIndex size (m.getD 1 0)).isNone

/-- The claim's occupied-cell condition at the numpy-resolved target. -/
def cellOccupied (g : TicTacToe) (m : List ℤ) : Bool :=
  match npIndex g.size (m.getD 0 0), npIndex g.size (m.getD 1 0) with
  | some i, some j => truthy (getCell g.observation_space i j)
  | _, _ => false

/-- Modelled from the claim's words (amended): `step` reports an error
exactly when the player token is invalid, it is not that player's turn,
the move is malformed, a coordinate is outside the numpy-accepted
range, or the targeted cell is already occupied. -/
def stepRejects (g : TicTacToe) (player : String) (move : Option (List ℤ)) : Bool :=
  decide (player ∉ players) ||
  decide (g.current_player ≠ none ∧ g.current_player ≠ some player) ||
  moveMalformed move ||
  moveOutOfRange g.size (move.getD []) ||
  cellOccupied g (move.getD [])

/-- From `MCTS.randomax`: one body of the `for element in elements`
loop, acting on the pair `(candidates, best_value)`.  The source uses
three consecutive `if` statements (not `elif`), reproduced exactly. -/
def randomaxStep {α β : Type} [LinearOrder β] (key : α → β)
    (acc : List α × Option β) (element : α) : List α × Option β :=
  let value := key element
  let best0 := acc.2.getD value
  let p1 := if best0 < value then (([element] : List α), value) else (acc.1, best0)
  let cands2 := if value = p1.2 then p1.1 ++ [element] else p1.1
  (cands2, some p1.2)

/-- From `MCTS.randomax` (the `key` is not `None` at any engine call
site): the `candidates` list handed to `random.choice`. -/
def randomaxCandidates {α β : Type} [LinearOrder β]
    (elements : List α) (key : α → β) : List α :=
  (elements.foldl (randomaxStep key) ([], none)).1

/-- Model of `random.choice(seq)` with injected randomness `r`: `none`
models the IndexError raised on an empty sequence. -/
def randomChoice {α : Type} (l : List α) (r : ℕ) : Option α :=
  if l.isEmpty then none else l.get? (r % l.length)

/-- From `MCTS.randomax`: `random.choice(candidates)`. -/
def randomax {α β : Type} [LinearOrder β]
    (elements : List α) (key : α → β) (r : ℕ) : Option α :=
  randomChoice (randomaxCandidates elements key) r

/-- The statistics of one `Node` of `mcts.py` as seen by
`MCTS.backpropagation`: `identifier` is its state identifier (the
quantity `Node.__eq__` compares through `State.__eq__`), `player` is
`state.player`, plus the two mutable counters. -/
structure BNode where
  identifier : ℕ
  player : String
  visit_count : ℕ
  accumulated_reward : ℚ
deriving DecidableEq

/-- The loop body of `MCTS.backpropagation` on one node:
`visit_count += 1` and `accumulated_reward` adjusted by `reward`
according to whether `node.parent.state.player == winner`. -/
def updateCounters (winner : String) (reward : ℚ) (parent n : BNode) : BNode :=
  { n with
    visit_count := n.visit_count + 1
    accumulated_reward :=
      if parent.player = winner then n.accumulated_reward + reward
      else n.accumulated_reward - reward }

/-- From `MCTS.backpropagation`: the loop `while node != root_node`,
acting on the chain of parent links written as a list whose head is the
starting node and whose successive elements are the successive parents.
The comparison `node != root_node` goes through `Node.__eq__`, which
compares state identifiers, hence the `rootId` test.  `none` models the
crash that running past a `None` parent before meeting `rootId` would
produce in the source. -/
def backpropagation (rootId : ℕ) (winner : String) (reward : ℚ) :
    List BNode → Option (List BNode)
  | [] => none
  | [n] => if n.identifier = rootId then some [n] else none
  | n :: parent :: rest =>
    if n.identifier = rootId then some (n :: parent :: rest)
    else
      (backpropagation rootId winner reward (parent :: rest)).map
        (fun r => updateCounters winner reward parent n :: r)

/-- Modelled from the spec claim: walk the parent links from the leaf
up to but excluding the root, updating each visited node from its
parent's player; the final (root) element is untouched. -/
def backpropSpec (winner : String) (reward : ℚ) : List BNode → List BNode
  | n :: parent :: rest =>
    updateCounters winner reward parent n :: backpropSpec winner reward (parent :: rest)
  | l => l

/-- From `MCTS.backpropagation` lines 183-184: a draw (`winner is
None`) substitutes `random.choice(self.game.players)`, injected here as
`randPlayer`. -/
def backpropagationRun (rootId : ℕ) (winner : Option String)
    (randPlayer : String) (reward : ℚ) (chain : List BNode) : Option (List BNode) :=
  backpropagation rootId (winner.getD randPlayer) reward chain

/-- Increment the visit count at position `i` of the list of the root's
children visit counts (the effect one completed iteration has on the
root child its backpropagation chain passes through). -/
def incAt : List ℕ → ℕ → List ℕ
  | [], _ => []
  | c :: cs, 0 => (c + 1) :: cs
  | c :: cs, i + 1 => c :: incAt cs i

/-- The visit counts of the root's children after a sequence of
completed iterations, iteration `k` passing through child `picks[k]`. -/
def iterateRun (picks : List ℕ) (cs : List ℕ) : List ℕ :=
  picks.foldl incAt cs

/-- Errors the modelled engine loops can raise: `indexError` is
`random.choice` on an empty sequence, `outOfFuel` is exhaustion of the
recursion fuel (the source loops are unbounded), `gameError` is a
propagated game exception and `attrError` is attribute access on a
`None` state. -/
inductive RunError where
  | indexError
  | outOfFuel
  | gameError (e : GameError)
  | attrError
deriving DecidableEq

/-- A node of the search tree as `MCTS.selection` sees it:
`unevaluated` is a `Node` whose `state` is still `None`; `evaluated`
carries `state.done`, the counters and `state.next_nodes`. -/
inductive MTree where
  | unevaluated (action : ℕ)
  | evaluated (action : Option ℕ) (done : Bool) (visit_count : ℕ)
      (accumulated_reward : ℚ) (children : List MTree)

/-- From `Node.is_evaluated`: whether `state` is bound. -/
def isEvaluated : MTree → Bool
  | .unevaluated _ => false
  | .evaluated _ _ _ _ _ => true

/-- From `Node.is_expanded`:
`all([action.is_evaluated for action in self.state.next_nodes])`. -/
def isExpanded (children : List MTree) : Bool :=
  children.all isEvaluated

/-- From `MCTS.selection`, with the UCB1 scores abstracted as `key`
(the source computes them in floating point; `randomax` only compares
them) and `random.choice` randomness injected through `rand`, indexed
by the remaining fuel.  Returns the pair `(parent, node)` of the
source, the parent being `None` when the loop never descended. -/
def selection (key : MTree → ℚ) (rand : ℕ → ℕ) :
    ℕ → Option MTree → MTree → Except RunError (Option MTree × MTree)
  | 0, _, _ => .error .outOfFuel
  | fuel + 1, parent, t =>
    match t with
    | .unevaluated _ => .error .attrError
    | .evaluated a done v r children =>
      if !done && isExpanded children then
        match randomax children key (rand fuel) with
        | none => .error .indexError
        | some c => selection key rand fuel (some (.evaluated a done v r children)) c
      else if done then .ok (parent, .evaluated a done v r children)
      else
        match randomChoice (children.filter (fun c => !(isEvaluated c))) (rand fuel) with
        | none => .error .indexError
        | some c => .ok (some (.evaluated a done v r children), c)

/-- From `MCTS.simulation`, specialised to the TicTacToe game the
engine owns: the `while not done` loop stepping the game with
`random.choice(self.game.actions(observation))`, randomness injected
through `randA` indexed by remaining fuel.  A `None` rollout player is
passed to `step` as the out-of-range token `""`, which `step` rejects
exactly as the source would. -/
def simulation (randA : ℕ → ℕ) (fuel : ℕ) (g : TicTacToe)
    (obs : List (List Cell)) (reward : ℤ) (done : Bool) (player : Option String) :
    Except RunError (Option String × ℤ) :=
  if done then .ok (player, reward)
  else
    match fuel with
    | 0 => .error .outOfFuel
    | fuel' + 1 =>
      match randomChoice (actions obs) (randA fuel') with
      | none => .error .indexError
      | some a =>
        match step g (player.getD "") (some [(a.1 : ℤ), (a.2 : ℤ)]) with
        | (.error e, _) => .error (.gameError e)
        | (.ok (obs2, r2, d2, p2), g2) => simulation randA fuel' g2 obs2 r2 d2 p2

/-- The default exploration constant `c = 1.41` of `MCTS.UCB1`. -/
def explorationConstant : ℚ := 1.41

/-- From `MCTS.UCB1`, with the external floating-point routines
`np.sqrt` and `np.log` abstracted as parameters over exact rationals:
`(node.accumulated_reward / node.visit_count)
 + c * np.sqrt(np.log(node.parent.visit_count) / node.visit_count)`. -/
def UCB1 (sqrt log : ℚ → ℚ) (visit_count : ℕ) (accumulated_reward : ℚ)
    (parent_visit_count : ℕ) (c : ℚ) : ℚ :=
  accumulated_reward / (visit_count : ℚ) +
    c * sqrt (log (parent_visit_count : ℚ) / (visit_count : ℚ))

/-- Modelled from the spec formula: `score(n) = (n.accumulated_reward /
n.visit_count) + c * sqrt(ln(parent.visit_count) / n.visit_count)` with
`c = 1.41`. -/
def UCB1Spec (sqrt log : ℚ → ℚ) (visit_count : ℕ) (accumulated_reward : ℚ)
    (parent_visit_count : ℕ) : ℚ :=
  accumulated_reward / (visit_count : ℚ) +
    (141 / 100 : ℚ) * sqrt (log (parent_visit_count : ℚ) / (visit_count : ℚ))

/-- The normalized value classes produced by `TicTacToe.state`: the
mover's cells become `1`, the opponent's cells `-1`, empty cells `0`,
and any other value is left in place. -/
inductive NVal where
  | one
  | negOne
  | zero
  | other (s : String)
deriving DecidableEq

/-- One cell of the masked assignments of `TicTacToe.state`:
`state[state == player] = 1`, `state[state == switch] = -1`,
`state[state == None] = 0`, the three classes being disjoint. -/
def normalizeCell (player : String) (c : Cell) : NVal :=
  match c with
  | none => .zero
  | some s =>
    if s = player then .one
    else if s = switch_player player then .negOne
    else .other s

/-- The whole normalized array of `TicTacToe.state`. -/
def normalize (obs : List (List Cell)) (player : String) : List (List NVal) :=
  obs.map (fun r => r.map (normalizeCell player))

/-- From `TicTacToe.state`: the returned key is the digest of the
normalized array; the external `xxhash` digest is abstracted as a
deterministic function `h` of the normalized array. -/
def state (h : List (List NVal) → ℕ) (obs : List (List Cell)) (player : String) : ℕ :=
  h (normalize obs player)

/-- Swap the two literal player tokens `"X"` and `"O"` in one cell. -/
def swapCell (c : Cell) : Cell :=
  if c = some "X" then some "O"
  else if c = some "O" then some "X"
  else c

/-- Swap the two literal player tokens `"X"` and `"O"` throughout an
observation. -/
def swapTokens (obs : List (List Cell)) : List (List Cell) :=
  obs.map (fun r => r.map swapCell)

/-! ### Helper lemmas -/

/-- Every branch of `step` either leaves the game object unchanged or
returns successfully. -/
lemma step_atomic_cases (g : TicTacToe) (p : String) (move : Option (List ℤ)) :
    (step g p move).2 = g ∨ errored (step g p move).1 = false := by
  by_cases h1 : p ∈ players
  case neg => simp [step, h1, errored]
  by_cases h2 : g.current_player ≠ none ∧ g.current_player ≠ some p
  case pos => simp [step, h1, h2, errored]
  rcases move with _ | m
  · simp [step, h1, h2, errored]
  rcases m with _ | ⟨a, m1⟩
  · simp [step, h1, h2, errored]
  rcases m1 with _ | ⟨b, m2⟩
  · simp [step, h1, h2, errored]
  rcases m2 with _ | ⟨c, m3⟩
  on_goal 2 => simp [step, h1, h2, errored]
  rcases e1 : npIndex g.size a with _ | i
  · simp [step, h1, h2, e1, errored]
  rcases e2 : npIndex g.size b with _ | j
  · simp [step, h1, h2, e1, e2, errored]
  by_cases h4 : truthy (getCell g.observation_space i j) = true
  · simp [step, h1, h2, e1, e2, h4, errored]
  by_cases h5 : is_winner g.size (setCell g.observation_space i j (some p)) p = true
  · right; simp [step, h1, h2, e1, e2, h4, h5, errored]
  by_cases h6 : is_finished (setCell g.observation_space i j (some p)) = true
  · right; simp [step, h1, h2, e1, e2, h4, h5, h6, errored]
  · right; simp [step, h1, h2, e1, e2, h4, h5, h6, errored]

/-- Normalization commutes with swapping the two player tokens while
switching the mover, cell by cell. -/
lemma normalizeCell_swap (p : String) (hp : p ∈ players) (c : Cell) :
    normalizeCell p c = normalizeCell (switch_player p) (swapCell c) := by
  have hp2 : p = "X" ∨ p = "O" := by simpa [players] using hp
  rcases c with _ | s
  · rcases hp2 with rfl | rfl <;> rfl
  · rcases hp2 with rfl | rfl <;>
      by_cases hx : s = "X" <;> by_cases ho : s = "O" <;>
        simp_all [normalizeCell, swapCell, switch_player, players]

/-- A row whose contribution to `actions` is empty holds no empty cell. -/
lemma row_actions_nil (i : ℕ) : ∀ (r : List Cell) (n : ℕ),
    (List.enumFrom n r).filterMap
      (fun q => if q.2 = none then some (i, q.1) else none) = [] →
    ∀ c ∈ r, c ≠ none := by
  intro r
  induction r with
  | nil => simp
  | cons c r ih =>
    intro n h
    by_cases hc : c = none
    · simp [List.enumFrom, List.filterMap_cons, hc] at h
    · intro x hx
      rcases List.mem_cons.mp hx with rfl | hxr
      · exact hc
      · simp only [List.enumFrom, List.filterMap_cons, hc, if_neg] at h
        exact ih (n + 1) (by simpa using h) x hxr

/-- A board whose `actions` list is empty holds no empty cell. -/
lemma actions_nil_no_empty : ∀ (obs : List (List Cell)) (n : ℕ),
    ((List.enumFrom n obs).map (fun p =>
      p.2.enum.filterMap
        (fun q => if q.2 = none then some (p.1, q.1) else none))).flatten = [] →
    ∀ r ∈ obs, ∀ c ∈ r, c ≠ none := by
  intro obs
  induction obs with
  | nil => simp
  | cons r obs ih =>
    intro n h
    simp only [List.enumFrom, List.map_cons, List.flatten_cons] at h
    obtain ⟨h1, h2⟩ := List.append_eq_nil.mp h
    intro r2 hr2
    rcases List.mem_cons.mp hr2 with rfl | hro
    · exact row_actions_nil n r2 0 h1
    · exact ih (n + 1) h2 r2 hro

/-- On a chain whose inner nodes all differ from the root identifier,
the backpropagation loop agrees with the spec-side walk. -/
lemma backprop_eq_spec (winner : String) (reward : ℚ) (root : BNode) :
    ∀ ns : List BNode, (∀ n ∈ ns, n.identifier ≠ root.identifier) →
    backpropagation root.identifier winner reward (ns ++ [root]) =
      some (backpropSpec winner reward (ns ++ [root])) := by
  intro ns
  induction ns with
  | nil => intro _; simp [backpropagation, backpropSpec]
  | cons n ns ih =>
    intro h
    have hn : n.identifier ≠ root.identifier := h n (by simp)
    have hrest : ∀ m ∈ ns, m.identifier ≠ root.identifier :=
      fun m hm => h m (by simp [hm])
    cases ns with
    | nil => simp [backpropagation, backpropSpec, hn]
    | cons p rest =>
      have hih := ih hrest
      simp only [List.cons_append] at hih ⊢
      rw [backpropagation, if_neg hn, hih]
      rfl

/-- The spec-side walk on a chain through `child` into `root` updates
`child` from parent `root` and keeps `root` last. -/
lemma backpropSpec_shape (winner : String) (reward : ℚ) (child root : BNode) :
    ∀ ns : List BNode, ∃ ns2 : List BNode,
      backpropSpec winner reward (ns ++ [child, root]) =
        ns2 ++ [updateCounters winner reward root child, root] ∧
      ns2.length = ns.length := by
  intro ns
  induction ns with
  | nil => exact ⟨[], rfl, rfl⟩
  | cons n ns ih =>
    obtain ⟨ns2, hs, hl⟩ := ih
    cases ns with
    | nil =>
      refine ⟨[updateCounters winner reward child n], ?_, by simp⟩
      simp [backpropSpec]
    | cons p rest =>
      refine ⟨updateCounters winner reward p n :: ns2, ?_, by simp [hl]⟩
      simp only [List.cons_append] at hs ⊢
      rw [backpropSpec, hs]

/-- The spec-side walk never touches the final (root) element. -/
lemma backpropSpec_last (winner : String) (reward : ℚ) (root : BNode) :
    ∀ ns : List BNode,
      (backpropSpec winner reward (ns ++ [root])).getLast? = some root := by
  intro ns
  induction ns with
  | nil => rfl
  | cons n ns ih =>
    cases ns with
    | nil => rfl
    | cons p rest =>
      simp only [List.cons_append] at ih ⊢
      rw [backpropSpec]
      simp [List.getLast?_cons, ih]

/-- Incrementing one visit count preserves the list length. -/
lemma incAt_length (cs : List ℕ) : ∀ i, (incAt cs i).length = cs.length := by
  induction cs with
  | nil => intro i; rfl
  | cons c cs ih =>
    intro i
    cases i with
    | zero => rfl
    | succ i => simp [incAt, ih]

/-- Incrementing one visit count preserves the lower bound one. -/
lemma incAt_ge_one (cs : List ℕ) : ∀ i, (∀ c ∈ cs, 1 ≤ c) →
    ∀ c ∈ incAt cs i, 1 ≤ c := by
  induction cs with
  | nil => intro i _; simp [incAt]
  | cons c cs ih =>
    intro i h x hx
    cases i with
    | zero =>
      rcases List.mem_cons.mp hx with rfl | hxr
      · have := h c (by simp); omega
      · exact h x (by simp [hxr])
    | succ i =>
      rcases List.mem_cons.mp hx with rfl | hxr
      · exact h x (by simp)
      · exact ih i (fun y hy => h y (by simp [hy])) x hxr

/-- Incrementing one in-range visit count raises the sum of
`visit_count - 1` by exactly one. -/
lemma incAt_sum (cs : List ℕ) : ∀ i, i < cs.length → (∀ c ∈ cs, 1 ≤ c) →
    ((incAt cs i).map (fun c => c - 1)).sum =
      ((cs.map (fun c => c - 1)).sum) + 1 := by
  induction cs with
  | nil => intro i hi _; simp at hi
  | cons c cs ih =>
    intro i hi h
    cases i with
    | zero =>
      have hc : 1 ≤ c := h c (by simp)
      simp [incAt]
      omega
    | succ i =>
      have hrec := ih i (by simpa using hi) (fun y hy => h y (by simp [hy]))
      simp [incAt, hrec]
      omega

/-- Each completed iteration adds one to the sum of `visit_count - 1`
over the root's children. -/
lemma iterateRun_sum : ∀ (picks : List ℕ) (cs : List ℕ), (∀ c ∈ cs, 1 ≤ c) →
    (∀ p ∈ picks, p < cs.length) →
    ((iterateRun picks cs).map (fun c => c - 1)).sum =
      ((cs.map (fun c => c - 1)).sum) + picks.length := by
  intro picks
  induction picks with
  | nil => intro cs _ _; simp [iterateRun]
  | cons p ps ih =>
    intro cs h1 h2
    have hp : p < cs.length := h2 p (by simp)
    have hfold : iterateRun (p :: ps) cs = iterateRun ps (incAt cs p) := rfl
    rw [hfold, ih (incAt cs p) (incAt_ge_one cs p h1)
      (fun q hq => by rw [incAt_length]; exact h2 q (by simp [hq]))]
    rw [incAt_sum cs p hp h1]
    simp
    omega

/-- Starting from freshly created children (all counters one), the sum
of `visit_count - 1` equals the number of completed iterations. -/
lemma iterateRun_replicate_sum (n : ℕ) (picks : List ℕ)
    (h : ∀ p ∈ picks, p < n) :
    ((iterateRun picks (List.replicate n 1)).map (fun c => c - 1)).sum =
      picks.length := by
  rw [iterateRun_sum picks (List.replicate n 1)
    (fun c hc => by simp [List.eq_of_mem_replicate hc])
    (fun p hp => by simpa using h p hp)]
  simp

/-! ### Claim theorems -/

/-- Claim C1 (code-bug evidence): the `candidates` list that
`MCTS.randomax` hands to `random.choice` does NOT contain each maximal
element exactly once.  Because the source uses `if value == best_value`
instead of `elif` after the strict-improvement branch, the element that
strictly improves the running maximum is appended twice: for key values
`[0, 1]` the candidate list is `[1, 1]`, and for key values `[0, 1, 1]`
it is the biased `[(1,1), (1,1), (2,1)]`, so the random tie-break is
not uniform over the maximal elements. -/
theorem randomax_candidates_duplicate_max :
    randomaxCandidates [(0 : ℤ), 1] id = [1, 1] ∧
    (randomaxCandidates [(0 : ℤ), 1] id).count 1 = 2 ∧
    randomaxCandidates [((0 : ℤ), (0 : ℤ)), (1, 1), (2, 1)] Prod.snd =
      [(1, 1), (1, 1), (2, 1)] := by decide

/-- Claim C2 (counterexample): at a concrete node that is not marked
terminal and has zero legal actions, both `selection` and `simulation`
raise IndexError (from `random.choice` on an empty sequence) instead of
treating the node as terminal with zero reward. -/
theorem selection_simulation_degenerate_crash :
    selection (fun _ => (0 : ℚ)) (fun _ => 0) 3 none
      (.evaluated none false 1 0 []) = .error .indexError ∧
    simulation (fun _ => 0) 3 ⟨1, [[some "X"]], none⟩ [[some "X"]] 0 false
      (some "O") = .error .indexError :=
  ⟨rfl, rfl⟩

/-- Claim C2 (amended): if a node reaches selection or simulation with
zero legal actions while its state is not marked terminal, the engine
crashes: `selection` feeds `randomax` an empty child list and
`random.choice` raises IndexError, and `simulation` calls
`random.choice` on the empty action list and raises IndexError; there
is no terminal-with-zero-reward fallback and no recoverable warning. -/
theorem selection_simulation_raise_on_degenerate :
    (∀ (key : MTree → ℚ) (rand : ℕ → ℕ) (fuel : ℕ) (parent : Option MTree)
      (a : Option ℕ) (v : ℕ) (r : ℚ),
      selection key rand (fuel + 1) parent (.evaluated a false v r []) =
        .error .indexError)
    ∧ (∀ (randA : ℕ → ℕ) (fuel : ℕ) (g : TicTacToe) (obs : List (List Cell))
        (reward : ℤ) (player : Option String),
        actions obs = [] →
        simulation randA (fuel + 1) g obs reward false player =
          .error .indexError) := by
  constructor
  · intro key rand fuel parent a v r
    rfl
  · intro randA fuel g obs reward player h
    rw [simulation]
    simp [h, randomChoice]

/-- Witness for C2's amended theorem at a concrete degenerate node and
a concrete full, not-marked-terminal board. -/
theorem selection_simulation_raise_witness :
    actions [[some "O"]] = [] ∧
    selection (fun _ => (0 : ℚ)) (fun _ => 1) (0 + 1) none
      (.evaluated none false 2 0 []) = .error .indexError ∧
    simulation (fun _ => 1) (0 + 1) ⟨1, [[some "O"]], none⟩ [[some "O"]] 0 false
      (some "X") = .error .indexError :=
  ⟨by decide,
   selection_simulation_raise_on_degenerate.1 _ _ 0 none none 2 0,
   selection_simulation_raise_on_degenerate.2 _ 0 _ _ 0 (some "X") (by decide)⟩

/-- Claim C3: on a parent chain from the expanded leaf whose inner
nodes all differ from the root's state identifier, backpropagation
(with a random player substituted for a draw winner) walks up to but
excluding the root, increments each visited node's `visit_count` by
exactly one, adds `reward` when the node's parent's `state.player`
equals the winner and subtracts it otherwise, and leaves the root's own
counters unchanged. -/
theorem backpropagation_matches_spec (winner : Option String)
    (randPlayer : String) (reward : ℚ) (ns : List BNode) (root : BNode)
    (h : ∀ n ∈ ns, n.identifier ≠ root.identifier) :
    backpropagationRun root.identifier winner randPlayer reward (ns ++ [root]) =
      some (backpropSpec (winner.getD randPlayer) reward (ns ++ [root])) ∧
    (backpropSpec (winner.getD randPlayer) reward (ns ++ [root])).getLast? =
      some root :=
  ⟨backprop_eq_spec (winner.getD randPlayer) reward root ns h,
   backpropSpec_last (winner.getD randPlayer) reward root ns⟩

/-- Witness for C3's theorem on a concrete three-node chain with a draw
winner. -/
theorem backpropagation_matches_spec_witness :
    backpropagationRun (BNode.mk 0 "X" 7 2).identifier none "X" 1
      ([⟨1, "O", 1, 0⟩, ⟨2, "X", 3, 5⟩] ++ [⟨0, "X", 7, 2⟩]) =
      some (backpropSpec ((none : Option String).getD "X") 1
        ([⟨1, "O", 1, 0⟩, ⟨2, "X", 3, 5⟩] ++ [⟨0, "X", 7, 2⟩])) ∧
    (backpropSpec ((none : Option String).getD "X") 1
      ([⟨1, "O", 1, 0⟩, ⟨2, "X", 3, 5⟩] ++ [⟨0, "X", 7, 2⟩])).getLast? =
      some ⟨0, "X", 7, 2⟩ :=
  backpropagation_matches_spec none "X" 1 [⟨1, "O", 1, 0⟩, ⟨2, "X", 3, 5⟩]
    ⟨0, "X", 7, 2⟩ (by decide)

/-- Claim C4: each completed iteration's backpropagation chain
increments the `visit_count` of exactly the one root child it passes
through by exactly one (leaving the root unchanged), and consequently,
with every root child created at `visit_count = 1`, the sum over the
root's children of `visit_count - 1` equals the number of completed
iterations and is non-decreasing as more iterations complete. -/
theorem iteration_root_child_increment :
    (∀ (winner : String) (reward : ℚ) (ns : List BNode) (child root : BNode),
      (∀ n ∈ ns ++ [child], n.identifier ≠ root.identifier) →
      ∃ ns2 : List BNode,
        backpropagation root.identifier winner reward (ns ++ [child, root]) =
          some (ns2 ++ [updateCounters winner reward root child, root]) ∧
        ns2.length = ns.length)
    ∧ (∀ (n : ℕ) (picks : List ℕ), (∀ p ∈ picks, p < n) →
        (((iterateRun picks (List.replicate n 1)).map (fun c => c - 1)).sum =
            picks.length
        ∧ ∀ k1 k2 : ℕ, k1 ≤ k2 →
            ((iterateRun (picks.take k1) (List.replicate n 1)).map
              (fun c => c - 1)).sum ≤
            ((iterateRun (picks.take k2) (List.replicate n 1)).map
              (fun c => c - 1)).sum)) := by
  constructor
  · intro winner reward ns child root h
    have heq := backprop_eq_spec winner reward root (ns ++ [child]) h
    obtain ⟨ns2, hs, hl⟩ := backpropSpec_shape winner reward child root ns
    refine ⟨ns2, ?_, hl⟩
    have hassoc : (ns ++ [child]) ++ [root] = ns ++ [child, root] := by simp
    rw [hassoc] at heq
    rw [heq, hs]
  · intro n picks h
    constructor
    · exact iterateRun_replicate_sum n picks h
    · intro k1 k2 hk
      have t1 := iterateRun_replicate_sum n (picks.take k1)
        (fun p hp => h p (List.mem_of_mem_take hp))
      have t2 := iterateRun_replicate_sum n (picks.take k2)
        (fun p hp => h p (List.mem_of_mem_take hp))
      rw [t1, t2]
      simp [List.length_take]
      omega

/-- Witness for C4's theorem: a one-step chain through one of two root
children, and three iterations over two children. -/
theorem iteration_root_child_increment_witness :
    ((∀ n ∈ ([] : List BNode) ++ [⟨1, "O", 1, 0⟩],
        n.identifier ≠ (BNode.mk 0 "X" 5 0).identifier) ∧
      (∀ p ∈ [0, 1, 0], p < 2)) ∧
    (∃ ns2 : List BNode,
      backpropagation (BNode.mk 0 "X" 5 0).identifier "X" 1
          (([] : List BNode) ++ [⟨1, "O", 1, 0⟩, ⟨0, "X", 5, 0⟩]) =
        some (ns2 ++
          [updateCounters "X" 1 ⟨0, "X", 5, 0⟩ ⟨1, "O", 1, 0⟩, ⟨0, "X", 5, 0⟩]) ∧
      ns2.length = ([] : List BNode).length) ∧
    ((iterateRun [0, 1, 0] (List.replicate 2 1)).map (fun c => c - 1)).sum =
      ([0, 1, 0] : List ℕ).length :=
  ⟨⟨by decide, by decide⟩,
   iteration_root_child_increment.1 "X" 1 [] ⟨1, "O", 1, 0⟩ ⟨0, "X", 5, 0⟩
     (by decide),
   (iteration_root_child_increment.2 2 [0, 1, 0] (by decide)).1⟩

/-- Claim C5 (counterexample): the move `(-1, 0)` is out of range for a
3-by-3 board, yet `step` raises no error: numpy wraps the negative row
index around and the mark is silently placed in the last row. -/
theorem step_negative_index_no_error :
    ((-1 : ℤ) < 0 ∨ 3 ≤ (-1 : ℤ)) ∧
    errored (step ⟨3, List.replicate 3 (List.replicate 3 (none : Cell)), none⟩ "X"
      (some [(-1 : ℤ), 0])).1 = false ∧
    (step ⟨3, List.replicate 3 (List.replicate 3 (none : Cell)), none⟩ "X"
      (some [(-1 : ℤ), 0])).2.observation_space =
      [[none, none, none], [none, none, none], [some "X", none, none]] :=
  ⟨by decide, by decide, by decide⟩

/-- Claim C5 (amended): `step` raises a `GameError` exactly when the
player is not a valid player token, it is not that player's turn, the
move is malformed (`None` or not of length two), a move coordinate is
outside the range numpy indexing accepts (below `-size` or at or above
`size`; negative coordinates down to `-size` wrap around and are
accepted), or the numpy-resolved target cell is already occupied; every
other move completes without error. -/
theorem step_error_iff_rejects (g : TicTacToe) (p : String)
    (move : Option (List ℤ)) :
    errored (step g p move).1 = stepRejects g p move := by
  by_cases h1 : p ∈ players
  case neg => simp [step, stepRejects, h1, errored]
  by_cases h2 : g.current_player ≠ none ∧ g.current_player ≠ some p
  case pos => simp [step, stepRejects, h1, h2, errored]
  rcases move with _ | m
  · simp [step, stepRejects, h1, h2, errored, moveMalformed]
  rcases m with _ | ⟨a, m1⟩
  · simp [step, stepRejects, h1, h2, errored, moveMalformed]
  rcases m1 with _ | ⟨b, m2⟩
  · simp [step, stepRejects, h1, h2, errored, moveMalformed]
  rcases m2 with _ | ⟨c, m3⟩
  on_goal 2 => simp [step, stepRejects, h1, h2, errored, moveMalformed]
  rcases e1 : npIndex g.size a with _ | i
  · simp [step, stepRejects, h1, h2, e1, errored, moveMalformed, moveOutOfRange]
  rcases e2 : npIndex g.size b with _ | j
  · simp [step, stepRejects, h1, h2, e1, e2, errored, moveMalformed, moveOutOfRange]
  by_cases h4 : truthy (getCell g.observation_space i j) = true
  · simp [step, stepRejects, h1, h2, e1, e2, h4, errored, moveMalformed,
      moveOutOfRange, cellOccupied]
  by_cases h5 : is_winner g.size (setCell g.observation_space i j (some p)) p = true
  · simp [step, stepRejects, h1, h2, e1, e2, h4, h5, errored, moveMalformed,
      moveOutOfRange, cellOccupied]
  by_cases h6 : is_finished (setCell g.observation_space i j (some p)) = true
  · simp [step, stepRejects, h1, h2, e1, e2, h4, h5, h6, errored, moveMalformed,
      moveOutOfRange, cellOccupied]
  · simp [step, stepRejects, h1, h2, e1, e2, h4, h5, h6, errored, moveMalformed,
      moveOutOfRange, cellOccupied]

/-- Claim C6: `state` normalizes the observation into mover, opponent
and empty classes before hashing, so swapping the two literal player
tokens throughout the observation while switching the mover yields the
identical key, for every digest function, observation and mover. -/
theorem state_swap_invariant (h : List (List NVal) → ℕ) (obs : List (List Cell))
    (p : String) (hp : p ∈ players) :
    state h obs p = state h (swapTokens obs) (switch_player p) := by
  unfold state
  congr 1
  simp only [normalize, swapTokens, List.map_map]
  apply List.map_congr_left
  intro r _
  simp only [Function.comp, List.map_map]
  apply List.map_congr_left
  intro c _
  exact normalizeCell_swap p hp c

/-- Witness for C6's theorem on a concrete observation that also holds
a junk token. -/
theorem state_swap_invariant_witness :
    ("X" : String) ∈ players ∧
    state (fun l => l.length) [[some "X", none], [some "O", some "Q"]] "X" =
      state (fun l => l.length)
        (swapTokens [[some "X", none], [some "O", some "Q"]])
        (switch_player "X") :=
  ⟨by decide, state_swap_invariant _ _ _ (by decide)⟩

/-- Claim C7: for fixed counters, the engine's UCB1 score with the
default exploration constant equals the closed-form
`accumulated_reward / visit_count
 + 1.41 * sqrt(ln(parent.visit_count) / visit_count)`,
and the default constant is exactly the literal `1.41`. -/
theorem UCB1_closed_form : ∀ (sqrt log : ℚ → ℚ) (vc : ℕ) (ar : ℚ) (pvc : ℕ),
    UCB1 sqrt log vc ar pvc explorationConstant = UCB1Spec sqrt log vc ar pvc ∧
    explorationConstant = 141 / 100 := by
  intro sqrt log vc ar pvc
  constructor
  · norm_num [UCB1, UCB1Spec, explorationConstant]
  · norm_num [explorationConstant]

/-- Claim C9: whenever `actions` returns the empty list, the board has
no empty cell and `is_finished` reports the game finished. -/
theorem actions_empty_implies_finished (obs : List (List Cell))
    (h : actions obs = []) :
    is_finished obs = true ∧ ∀ r ∈ obs, ∀ c ∈ r, c ≠ none := by
  have hno : ∀ r ∈ obs, ∀ c ∈ r, c ≠ none := by
    apply actions_nil_no_empty obs 0
    simpa [actions, List.enum] using h
  refine ⟨?_, hno⟩
  simp only [is_finished, List.all_eq_true, decide_eq_true_eq]
  exact hno

/-- Witness for C9's theorem on a concrete full board. -/
theorem actions_empty_implies_finished_witness :
    actions [[some "X", some "O"], [some "O", some "X"]] = [] ∧
    (is_finished [[some "X", some "O"], [some "O", some "X"]] = true ∧
      ∀ r ∈ [[some "X", some "O"], [some "O", some "X"]], ∀ c ∈ r, c ≠ none) :=
  ⟨by decide, actions_empty_implies_finished _ (by decide)⟩

/-- Claim C10: `step` is atomic on error: whenever it raises a
`GameError`, the game object (board and current player) is exactly as
it was before the call. -/
theorem step_atomic_on_error (g : TicTacToe) (p : String)
    (move : Option (List ℤ)) (h : errored (step g p move).1 = true) :
    (step g p move).2 = g := by
  rcases step_atomic_cases g p move with h2 | h2
  · exact h2
  · rw [h] at h2; cases h2

/-- Witness for C10's theorem: an invalid player token raises and the
game object is unchanged. -/
theorem step_atomic_on_error_witness :
    errored (step ⟨3, List.replicate 3 (List.replicate 3 (none : Cell)), none⟩ "Z"
      (some [0, 0])).1 = true ∧
    (step ⟨3, List.replicate 3 (List.replicate 3 (none : Cell)), none⟩ "Z"
      (some [0, 0])).2 =
      ⟨3, List.replicate 3 (List.replicate 3 (none : Cell)), none⟩ :=
  ⟨by decide, step_atomic_on_error _ _ _ (by decide)⟩

end PyMCTS
